import Mathlib

/-!
Verification of the fpf form-population filter (github.com/saracen/fpf).

The development shallowly embeds the Go sources:
  * the attribute helper module (package attr),
  * the scope-resolution traversal (processor.traverse),
  * the label cross-resolver (the loop inside FormPopulationFilter.Execute),
  * the value populator (processor.populate),
  * the incident resolver (processor.insert) and
  * the generic incident inserter (GenericIncidentInserter.Insert)
    with its lowest-common-ancestor computation.

HTML nodes are modelled as a tree whose elements carry a numeric uid
standing for Go pointer identity; mutation of the live tree is modelled
by structure-preserving rewrites addressed by uid or by child path.
Go slice panics (index out of range) are modelled as Except errors.
-/

/-- One HTML attribute (html.Attribute restricted to Key/Val, as used by fpf). -/
structure HAttr where
  key : String
  val : String
deriving DecidableEq, Repr

/-- A node of the parsed HTML tree.  The uid models Go pointer identity:
two occurrences are the same live node exactly when they sit at the same
position of the tree, and uids let operations address a node the way the
Go code holds on to a pointer. -/
inductive HNode where
  | elem (uid : Nat) (tag : String) (attrs : List HAttr) (children : List HNode)
  | text (uid : Nat) (s : String)

namespace Attributes

/-- attr.Attributes.Attribute: pointer to the first attribute with the
given key, nil when absent. -/
def Attribute (name : String) : List HAttr → Option HAttr
  | [] => none
  | a :: rest => if a.key = name then some a else Attribute name rest

/-- attr.Attributes.Get: value of the first attribute with the given key,
empty string when absent. -/
def Get (name : String) (attrs : List HAttr) : String :=
  match Attribute name attrs with
  | some a => a.val
  | none => ""

/-- attr.Attributes.Has: whether an attribute with the given key exists. -/
def Has (name : String) (attrs : List HAttr) : Bool :=
  (Attribute name attrs).isSome

/-- One iteration step of the loop in attr.Attributes.Remove, tracking the
Go slice state: the receiver is a value, so the caller keeps the original
length while the loop variable is re-sliced.  backing is the shared
backing array (its length never changes), live is the length of the
loop-local slice.  Reading index i with i >= live is a Go runtime panic,
modelled as none. -/
def RemoveStep (name : String) (backing : List HAttr) (live i : Nat) :
    Option (List HAttr × Nat) :=
  match backing.get? i with
  | none => none
  | some a =>
    if i ≥ live then none
    else if a.key = name then
      -- append(attrs[:i], attrs[i+1:]...): elements i+1 .. live-1 shift
      -- one slot left inside the backing array; slots live-1 .. keep
      -- their old contents; the local slice shrinks by one.
      some (backing.take i ++ (backing.drop (i + 1)).take (live - 1 - i) ++
            backing.drop (live - 1), live - 1)
    else some (backing, live)

/-- The loop of attr.Attributes.Remove: i ranges over the original length
(the range expression is evaluated once in Go). -/
def RemoveLoop (name : String) (fuel : Nat) (backing : List HAttr) (live i : Nat) :
    Option (List HAttr) :=
  match fuel with
  | 0 => some backing
  | fuel + 1 =>
    match RemoveStep name backing live i with
    | none => none
    | some (backing', live') => RemoveLoop name fuel backing' live' (i + 1)

/-- Caller-visible semantics of attr.Attributes.Remove.  The receiver is a
value, so the caller observes the (possibly shifted) backing array at the
original length; none models an index-out-of-range panic inside the loop. -/
def Remove (name : String) (attrs : List HAttr) : Option (List HAttr) :=
  RemoveLoop name attrs.length attrs attrs.length 0

end Attributes

/- Decidable equality for HNode (hand-rolled because of the nested List). -/
mutual
def HNode.decEq : (a b : HNode) → Decidable (a = b)
  | .elem u t ats cs, .elem u' t' ats' cs' =>
    if h1 : u = u' then
      if h2 : t = t' then
        if h3 : ats = ats' then
          match HNode.decEqL cs cs' with
          | isTrue h4 => isTrue (by rw [h1, h2, h3, h4])
          | isFalse h4 => isFalse (by intro h; injection h; contradiction)
        else isFalse (by intro h; injection h; contradiction)
      else isFalse (by intro h; injection h; contradiction)
    else isFalse (by intro h; injection h; contradiction)
  | .text u s, .text u' s' =>
    if h1 : u = u' then
      if h2 : s = s' then isTrue (by rw [h1, h2])
      else isFalse (by intro h; injection h; contradiction)
    else isFalse (by intro h; injection h; contradiction)
  | .elem _ _ _ _, .text _ _ => isFalse (by intro h; exact HNode.noConfusion h)
  | .text _ _, .elem _ _ _ _ => isFalse (by intro h; exact HNode.noConfusion h)
def HNode.decEqL : (as bs : List HNode) → Decidable (as = bs)
  | [], [] => isTrue rfl
  | a :: as, b :: bs =>
    match HNode.decEq a b with
    | isTrue h1 =>
      match HNode.decEqL as bs with
      | isTrue h2 => isTrue (by rw [h1, h2])
      | isFalse h2 => isFalse (by intro h; injection h; contradiction)
    | isFalse h1 => isFalse (by intro h; injection h; contradiction)
  | [], _ :: _ => isFalse (by intro h; exact List.noConfusion h)
  | _ :: _, [] => isFalse (by intro h; exact List.noConfusion h)
end

instance : DecidableEq HNode := HNode.decEq

/- The uids of all nodes of a tree in depth-first pre-order (document
order), mirroring the order in which processor.traverse visits nodes. -/
mutual
def preorderUids : HNode → List Nat
  | .text u _ => [u]
  | .elem u _ _ cs => u :: preorderUidsL cs
def preorderUidsL : List HNode → List Nat
  | [] => []
  | c :: cs => preorderUids c ++ preorderUidsL cs
end

/- Dereference a node pointer: the Data and Attr fields of the first
pre-order node carrying the uid.  For a text node Go exposes the text as
Data and a nil attribute list. -/
mutual
def findTagAttrs (u : Nat) : HNode → Option (String × List HAttr)
  | .text v s => if v = u then some (s, []) else none
  | .elem v t a cs => if v = u then some (t, a) else findTagAttrsL u cs
def findTagAttrsL (u : Nat) : List HNode → Option (String × List HAttr)
  | [] => none
  | c :: cs =>
    match findTagAttrs u c with
    | some ta => some ta
    | none => findTagAttrsL u cs
end

/-- The attribute list of the node with the given uid (empty when absent;
absence cannot happen for live pointers held by the processor). -/
def attrsOfUid (u : Nat) (d : HNode) : List HAttr :=
  match findTagAttrs u d with
  | some ta => ta.2
  | none => []

/-- Get of the name attribute of the node with the given uid. -/
def nameOfUid (u : Nat) (d : HNode) : String :=
  Attributes.Get "name" (attrsOfUid u d)

/- In-place mutation of a node's attribute list through its pointer:
replace the attribute list of every node carrying the uid (for the
processor's trees uids are distinct, so exactly the pointed-to node). -/
mutual
def setAttrsByUid (u : Nat) (na : List HAttr) : HNode → HNode
  | .text v s => .text v s
  | .elem v t a cs =>
    .elem v t (if v = u then na else a) (setAttrsByUidL u na cs)
def setAttrsByUidL (u : Nat) (na : List HAttr) : List HNode → List HNode
  | [] => []
  | c :: cs => setAttrsByUid u na c :: setAttrsByUidL u na cs
end

/- The textarea population rule of processor.populate: the removal loop
calls RemoveChild on the first child, which nils that child's NextSibling,
so the loop stops after one removal; then a fresh text node holding the
first supplied value is appended.  New nodes are given uid 0. -/
mutual
def textareaFillByUid (u : Nat) (v : String) : HNode → HNode
  | .text w s => .text w s
  | .elem w t a cs =>
    let cs' := textareaFillByUidL u v cs
    .elem w t a (if w = u then cs'.drop 1 ++ [.text 0 v] else cs')
def textareaFillByUidL (u : Nat) (v : String) : List HNode → List HNode
  | [] => []
  | c :: cs => textareaFillByUid u v c :: textareaFillByUidL u v cs
end

/-- Node lookup by child-index path from the root. -/
def nodeAtPath : List Nat → HNode → Option HNode
  | [], n => some n
  | i :: p, .elem _ _ _ cs =>
    match cs.get? i with
    | some c => nodeAtPath p c
    | none => none
  | _ :: _, .text _ _ => none

/-- The children of a node (empty for text nodes). -/
def childrenOf : HNode → List HNode
  | .elem _ _ _ cs => cs
  | .text _ _ => []

/-- The children of the node at a path. -/
def childrenAtPath (p : List Nat) (d : HNode) : Option (List HNode) :=
  (nodeAtPath p d).map childrenOf

/-- Apply a function to the i-th entry of a list (identity out of range). -/
def modifyListAt (i : Nat) (g : HNode → HNode) : List HNode → List HNode
  | [] => []
  | c :: cs =>
    match i with
    | 0 => g c :: cs
    | j + 1 => c :: modifyListAt j g cs

/-- Apply a function to the node at a path (identity when the path is dead). -/
def modifyAtPath (g : HNode → HNode) : List Nat → HNode → HNode
  | [], n => g n
  | i :: p, .elem v t a cs => .elem v t a (modifyListAt i (modifyAtPath g p) cs)
  | _ :: _, .text v s => .text v s

/-- html.Node.InsertBefore relative to a child index: insert the new node
into the children of the node at path p, before index i (appending at the
end when i is past the last child, which is the oldChild == nil case). -/
def insertChildAt (p : List Nat) (i : Nat) (frag : HNode) (d : HNode) : HNode :=
  modifyAtPath
    (fun n =>
      match n with
      | .elem v t a cs => .elem v t a (cs.take i ++ frag :: cs.drop i)
      | .text v s => .text v s) p d

/-- html.Node.AppendChild at a path: the new node becomes the last child. -/
def appendChildAt (p : List Nat) (frag : HNode) (d : HNode) : HNode :=
  modifyAtPath
    (fun n =>
      match n with
      | .elem v t a cs => .elem v t a (cs ++ [frag])
      | .text v s => .text v s) p d

/- Path (from the root) of the first pre-order node carrying a uid;
this is how the model recovers the Parent chain a Go pointer gives. -/
mutual
def pathOfUid (u : Nat) : HNode → Option (List Nat)
  | .text v _ => if v = u then some [] else none
  | .elem v _ _ cs => if v = u then some [] else pathOfUidL u 0 cs
def pathOfUidL (u : Nat) (i : Nat) : List HNode → Option (List Nat)
  | [] => none
  | c :: cs =>
    match pathOfUid u c with
    | some p => some (i :: p)
    | none => pathOfUidL u (i + 1) cs
end

/-- The proper ancestors of a node (as paths), nearest (deepest) first:
exactly the chain a.Parent, a.Parent.Parent, ... that the Go lca walks. -/
def properAncestors : List Nat → List (List Nat)
  | [] => []
  | x :: rest => (properAncestors rest).map (fun q => x :: q) ++ [[]]

/-- The lca helper of GenericIncidentInserter.Insert.  For the running
node a and the next element b it walks a's proper-ancestor chain outward
and returns the first entry that also lies on b's proper-ancestor chain,
folding the remaining elements in; when the chains share nothing it
returns a unchanged (unreachable inside one tree). -/
def lca (a : List Nat) : List (List Nat) → List Nat
  | [] => a
  | b :: rest =>
    match (properAncestors a).find? (fun ap => decide (ap ∈ properAncestors b)) with
    | some ap => lca ap rest
    | none => a

deriving instance DecidableEq for Except

/-- Failure modes of the embedded pipeline: the two slice index panics the
processor can hit (the broken Remove loop and an empty value slice), and a
failure of the incident-insertion strategy (e.g. a fragment parse error). -/
inductive ExecErr where
  | removePanic
  | indexPanic
  | insertFail
deriving DecidableEq, Repr

/-- params[0] on a Go slice: a panic when the slice is empty. -/
def head0 : List String → Except ExecErr String
  | [] => .error .indexPanic
  | v :: _ => .ok v

/-- url.Values lookup (map presence check included). -/
def lookupValues (values : List (String × List String)) (name : String) :
    Option (List String) :=
  match values.find? (fun p => p.1 = name) with
  | some p => some p.2
  | none => none

/-- Lookup in a map from node pointer to node-pointer list. -/
def mapFind (m : List (Nat × List Nat)) (k : Nat) : Option (List Nat) :=
  match m.find? (fun p => p.1 = k) with
  | some p => some p.2
  | none => none

/-- Map read with the zero value (nil slice) for an absent key. -/
def mapGetD (m : List (Nat × List Nat)) (k : Nat) : List Nat :=
  match mapFind m k with
  | some v => v
  | none => []

/-- Go map assignment m[k] = v. -/
def mapSet : List (Nat × List Nat) → Nat → List Nat → List (Nat × List Nat)
  | [], k, v => [(k, v)]
  | (k', v') :: rest, k, v =>
    if k' = k then (k, v) :: rest else (k', v') :: mapSet rest k v

/-- The FormPopulationFilter configuration fields read by populate. -/
structure Config where
  includeHiddenInputs : Bool
  includePasswordInputs : Bool
deriving DecidableEq, Repr

/-- New(): the default configuration (hidden enabled, password disabled). -/
def NewFilter : Config := ⟨true, false⟩

/-- The select rule of processor.populate: for each recorded option, run
the broken Remove on "selected" (a panic, or no visible change), read the
value attribute, and append one selected attribute per supplied value
equal to it. -/
def populateOptions (params : List String) (opts : List Nat) (doc : HNode) :
    Except ExecErr HNode :=
  match opts with
  | [] => .ok doc
  | o :: rest =>
    let oa := attrsOfUid o doc
    match Attributes.Remove "selected" oa with
    | none => .error .removePanic
    | some oa' =>
      let value := Attributes.Get "value" oa'
      let oa'' := oa' ++ (params.filter (fun p => value = p)).map
        (fun _ => (⟨"selected", "selected"⟩ : HAttr))
      populateOptions params rest (setAttrsByUid o oa'' doc)

/-- The body of the loop of processor.populate for a single input pointer:
look the element's name up in Values and apply the element-kind rule. -/
def populateStep (cfg : Config) (values : List (String × List String))
    (optsMap : List (Nat × List Nat)) (doc : HNode) (u : Nat) :
    Except ExecErr HNode :=
  match findTagAttrs u doc with
  | none => .ok doc
  | some (tag, attrs) =>
    match lookupValues values (Attributes.Get "name" attrs) with
    | none => .ok doc
    | some params =>
      if tag = "select" then
        match mapFind optsMap u with
        | some opts => populateOptions params opts doc
        | none => .ok doc
      else if tag = "textarea" then
        match head0 params with
        | .error e => .error e
        | .ok v => .ok (textareaFillByUid u v doc)
      else
        let typ := Attributes.Get "type" attrs
        if typ = "radio" ∨ typ = "checkbox" then
          let value := Attributes.Attribute "value" attrs
          match Attributes.Remove "checked" attrs with
          | none => .error .removePanic
          | some attrs' =>
            match value with
            | none => .ok (setAttrsByUid u (attrs' ++ [⟨"checked", "checked"⟩]) doc)
            | some va =>
              match head0 params with
              | .error e => .error e
              | .ok p0 =>
                if va.val = p0 then
                  .ok (setAttrsByUid u (attrs' ++ [⟨"checked", "checked"⟩]) doc)
                else .ok (setAttrsByUid u attrs' doc)
        else if typ = "file" ∨ typ = "image" then .ok doc
        else if typ = "password" ∧ cfg.includePasswordInputs = false then .ok doc
        else if typ = "hidden" ∧ cfg.includeHiddenInputs = false then .ok doc
        else
          match Attributes.Remove "value" attrs with
          | none => .error .removePanic
          | some attrs' =>
            match head0 params with
            | .error e => .error e
            | .ok p0 => .ok (setAttrsByUid u (attrs' ++ [⟨"value", p0⟩]) doc)

/-- processor.populate for one form: fold the step over the form's
resolved inputs in order. -/
def populateForm (cfg : Config) (values : List (String × List String))
    (inputs : List Nat) (optsMap : List (Nat × List Nat)) (doc : HNode) :
    Except ExecErr HNode :=
  match inputs with
  | [] => .ok doc
  | u :: rest =>
    match populateStep cfg values optsMap doc u with
    | .error e => .error e
    | .ok d' => populateForm cfg values rest optsMap d'

/-- The traversal context of processor.traverse, copied by value down the
recursion: the enclosing form element's attribute list (only its id is
ever read), the enclosing label pointer and the enclosing select pointer. -/
structure TravCtx where
  form : Option (List HAttr)
  label : Option Nat
  sel : Option Nat
deriving DecidableEq, Repr

/-- Traversal results: the processor's global deferred-label slice and,
flattened with their form id, the per-form inputs slice and the
append-events of the per-form label and option maps. -/
structure TravSt where
  labels : List Nat
  inputs : List (String × Nat)
  labelAssoc : List (String × Nat × Nat)
  optionAssoc : List (String × Nat × Nat)
deriving DecidableEq, Repr

/-- Appending a qualifying element to its form's inputs slice, plus the
nested-label association when a label context is active. -/
def travInputAdd (fid : String) (u : Nat) (ctx : TravCtx) (st : TravSt) : TravSt :=
  ⟨st.labels, st.inputs ++ [(fid, u)],
    (match ctx.label with
     | some l => st.labelAssoc ++ [(fid, u, l)]
     | none => st.labelAssoc),
    st.optionAssoc⟩

/-- The element-kind switch at the end of the traverse body: input,
textarea, progress and meter qualify; button only with type submit;
select qualifies and opens a select context for its children. -/
def travKind (fid : String) (u : Nat) (tag : String) (attrs : List HAttr)
    (ctx : TravCtx) (st : TravSt) : TravSt × TravCtx :=
  let name := Attributes.Get "name" attrs
  if name = "" then (st, ctx)
  else if tag = "input" ∨ tag = "textarea" ∨ tag = "progress" ∨ tag = "meter" then
    (travInputAdd fid u ctx st, ctx)
  else if tag = "button" then
    if Attributes.Get "type" attrs = "submit" then (travInputAdd fid u ctx st, ctx)
    else (st, ctx)
  else if tag = "select" then
    (travInputAdd fid u ctx st, ⟨ctx.form, ctx.label, some u⟩)
  else (st, ctx)

/-- The part of the traverse body after the form-of-interest check:
defer labels carrying a for attribute, record options under an active
select context, then fall through to the element-kind switch. -/
def travBody1 (fid : String) (u : Nat) (tag : String) (attrs : List HAttr)
    (ctx : TravCtx) (st : TravSt) : TravSt × TravCtx :=
  if tag = "label" ∧ Attributes.Has "for" attrs then
    (⟨st.labels ++ [u], st.inputs, st.labelAssoc, st.optionAssoc⟩, ctx)
  else
    match ctx.sel with
    | some s =>
      if tag = "option" then
        (⟨st.labels, st.inputs, st.labelAssoc, st.optionAssoc ++ [(fid, s, u)]⟩, ctx)
      else travKind fid u tag attrs ctx st
    | none => travKind fid u tag attrs ctx st

/-- The form-id resolution of the traverse body: the form attribute value
when non-empty, else the id attribute of the enclosing form element. -/
def travFormId (formAttr : Option HAttr) (ctxForm : Option (List HAttr)) : String :=
  let fid0 :=
    match formAttr with
    | some a => a.val
    | none => ""
  if fid0 = "" then
    match ctxForm with
    | some fa => Attributes.Get "id" fa
    | none => fid0
  else fid0

/-- The body of processor.traverse for one element node: the element is
interesting only inside a form context or with a form attribute; elements
of forms outside the interest set are skipped (their subtrees are still
traversed by the caller). -/
def travBody (interest : List String) (u : Nat) (tag : String)
    (attrs : List HAttr) (ctx : TravCtx) (st : TravSt) : TravSt × TravCtx :=
  let formAttr := Attributes.Attribute "form" attrs
  if ctx.form.isNone ∧ formAttr.isNone then (st, ctx)
  else
    let fid := travFormId formAttr ctx.form
    if fid ∈ interest then travBody1 fid u tag attrs ctx st else (st, ctx)

/- processor.traverse: update the form/label context from the node's tag,
run the body (which may open a select context), then recurse into the
children with the updated context; context changes never leak back up. -/
mutual
def travNode (interest : List String) : HNode → TravCtx → TravSt → TravSt
  | .text _ _, _, st => st
  | .elem u tag attrs cs, ctx, st =>
    let ctx1 : TravCtx :=
      ⟨if tag = "form" then some attrs else ctx.form,
       if tag = "label" then some u else ctx.label,
       ctx.sel⟩
    let r := travBody interest u tag attrs ctx1 st
    travList interest cs r.2 r.1
def travList (interest : List String) : List HNode → TravCtx → TravSt → TravSt
  | [], _, st => st
  | c :: cs, ctx, st => travList interest cs ctx (travNode interest c ctx st)
end

/-- The ordered inputs slice of one form. -/
def inputsOf (st : TravSt) (fid : String) : List Nat :=
  (st.inputs.filter (fun p => p.1 = fid)).map (fun p => p.2)

/-- The nested labels recorded for one input of one form, in append order. -/
def nestedLabelsFor (st : TravSt) (fid : String) (u : Nat) : List Nat :=
  (st.labelAssoc.filter (fun t => t.1 = fid ∧ t.2.1 = u)).map (fun t => t.2.2)

/-- The per-form nested-label map as an association list over the form's
inputs (an input without nested labels maps to the nil slice, which is
indistinguishable from an absent Go map key for every read performed). -/
def labelsMapOf (st : TravSt) (fid : String) : List (Nat × List Nat) :=
  (inputsOf st fid).map (fun u => (u, nestedLabelsFor st fid u))

/-- The options recorded for one select of one form, in append order. -/
def optionsFor (st : TravSt) (fid : String) (s : Nat) : List Nat :=
  (st.optionAssoc.filter (fun t => t.1 = fid ∧ t.2.1 = s)).map (fun t => t.2.2)

/-- The per-form option map: a key exists exactly for selects that had at
least one option recorded, as in the Go map. -/
def optionsMapOf (st : TravSt) (fid : String) : List (Nat × List Nat) :=
  (st.optionAssoc.filter (fun t => t.1 = fid)).map
    (fun t => (t.2.1, optionsFor st fid t.2.1))

/-- The inner loop of the label cross-resolver in Execute: for one
deferred label, scan the form's inputs; on an id match the label map entry
is overwritten with the OPTIONS map entry plus this label (the code reads
p.forms[form.ID].options where its comment says labels). -/
def crossInner (doc : HNode) (id : String) (l : Nat) (inputs : List Nat)
    (labels options : List (Nat × List Nat)) : List (Nat × List Nat) :=
  match inputs with
  | [] => labels
  | u :: rest =>
    let labels' :=
      if Attributes.Get "id" (attrsOfUid u doc) = id then
        mapSet labels u (mapGetD options u ++ [l])
      else labels
    crossInner doc id l rest labels' options

/-- The label cross-resolver loop of Execute for one form: every deferred
label (from any form scope) is matched against this form's inputs by its
for attribute versus their id attribute. -/
def crossResolveLoop (doc : HNode) (inputs : List Nat) (deferred : List Nat)
    (labels options : List (Nat × List Nat)) : List (Nat × List Nat) :=
  match deferred with
  | [] => labels
  | l :: rest =>
    let id := Attributes.Get "for" (attrsOfUid l doc)
    crossResolveLoop doc inputs rest (crossInner doc id l inputs labels options) options

/-- The label map one form carries into its insert phase: the traverse
result cross-resolved against the current document. -/
def formLabels (st : TravSt) (doc : HNode) (fid : String) : List (Nat × List Nat) :=
  crossResolveLoop doc (inputsOf st fid) st.labels (labelsMapOf st fid)
    (optionsMapOf st fid)

/-- One validation incident: the element names it applies to and its
error messages. -/
structure Incident where
  names : List String
  errors : List String
deriving DecidableEq, Repr

/-- The element-matching loop of processor.insert: for each input in form
order, one LabelableElement per incident name equal to the input's name
attribute (read from the live document), paired with the form's resolved
labels for that input. -/
def matchedElements (doc : HNode) (inputs : List Nat)
    (labels : List (Nat × List Nat)) (names : List String) :
    List (Nat × List Nat) :=
  match inputs with
  | [] => []
  | u :: rest =>
    (names.filterMap (fun nm =>
      if nameOfUid u doc = nm then some (u, mapGetD labels u) else none)) ++
    matchedElements doc rest labels names

/-- An incident-insertion strategy (the IncidentInserter interface):
given the matched elements, the error messages and the document, produce
the mutated document or fail. -/
def Inserter : Type :=
  List (Nat × List Nat) → List String → HNode → Except ExecErr HNode

/-- processor.insert for one form: process incidents in declared order;
an incident with no matched elements invokes no insertion at all; a
failing insertion aborts immediately. -/
def insertIncidents (ins : Inserter) (inputs : List Nat)
    (labels : List (Nat × List Nat)) (doc : HNode) :
    List Incident → Except ExecErr HNode
  | [] => .ok doc
  | inc :: rest =>
    match matchedElements doc inputs labels inc.names with
    | [] => insertIncidents ins inputs labels doc rest
    | e :: es =>
      match ins (e :: es) inc.errors doc with
      | .error err => .error err
      | .ok d' => insertIncidents ins inputs labels d' rest

/-- addErrorClass of GenericIncidentInserter.Insert on an attribute list:
append the class token to the value of the first class attribute, or add
a class attribute at the end of the list. -/
def addClass (c : String) : List HAttr → List HAttr
  | [] => [⟨"class", c⟩]
  | a :: rest =>
    if a.key = "class" then ⟨a.key, a.val ++ " " ++ c⟩ :: rest
    else a :: addClass c rest

/- addErrorClass applied through a node pointer. -/
mutual
def markByUid (c : String) (u : Nat) : HNode → HNode
  | .text v s => .text v s
  | .elem v t a cs =>
    .elem v t (if v = u then addClass c a else a) (markByUidL c u cs)
def markByUidL (c : String) (u : Nat) : List HNode → List HNode
  | [] => []
  | n :: ns => markByUid c u n :: markByUidL c u ns
end

/-- Marking loop of Insert: each matched element, then each of its labels. -/
def markLabels (c : String) (ls : List Nat) (doc : HNode) : HNode :=
  match ls with
  | [] => doc
  | l :: rest => markLabels c rest (markByUid c l doc)

/-- Marking loop of Insert over all matched elements. -/
def markElements (c : String) (elements : List (Nat × List Nat)) (doc : HNode) :
    HNode :=
  match elements with
  | [] => doc
  | (e, ls) :: rest => markElements c rest (markLabels c ls (markByUid c e doc))

/-- The parsed fragment produced by executing the default error template
and parsing it in a body context: an unordered list with one item per
error message.  Freshly parsed nodes carry uid 0, which never collides
with a live pointer the processor holds. -/
def renderDefaultTemplate (errors : List String) : HNode :=
  .elem 0 "ul" [⟨"class", "errors"⟩]
    (errors.map (fun e => HNode.elem 0 "li" [] [.text 0 e]))

/-- GenericIncidentInserter: the error class token and the fragment
renderer (template execution followed by fragment parsing). -/
structure GenericIncidentInserter where
  errorClass : String
  renderErrors : List String → HNode

/-- DefaultIncidentInserter: class error and the unordered-list template. -/
def DefaultIncidentInserter : GenericIncidentInserter :=
  ⟨"error", renderDefaultTemplate⟩

/-- The tree position of a live pointer (root fallback is unreachable for
pointers the processor holds). -/
def pathOr0 (u : Nat) (d : HNode) : List Nat :=
  match pathOfUid u d with
  | some p => p
  | none => []

/-- GenericIncidentInserter.Insert: render the fragment, mark every
matched element and its labels with the error class, then place the
fragment: immediately after the element for a single match, and as the
last child of the lowest common ancestor (per the lca helper) for
multiple matches. -/
def GenericIncidentInserter.insert (g : GenericIncidentInserter)
    (elements : List (Nat × List Nat)) (errors : List String) (doc : HNode) :
    HNode :=
  let frag := g.renderErrors errors
  let marked := markElements g.errorClass elements doc
  match elements with
  | [] => marked
  | [(e, _)] =>
    match pathOfUid e marked with
    | some p =>
      match p.getLast? with
      | some i => insertChildAt p.dropLast (i + 1) frag marked
      | none => marked
    | none => marked
  | (e, _) :: rest =>
    let p0 := pathOr0 e marked
    let ps := rest.map (fun el => pathOr0 el.1 marked)
    appendChildAt (lca p0 ps) frag marked

/-- The default strategy wrapped as an Inserter (the template always
executes and its output always parses, so it never fails). -/
def defaultInserter : Inserter :=
  fun elements errors doc =>
    .ok (DefaultIncidentInserter.insert elements errors doc)

/-- One execution's form description: id, submitted values and incidents. -/
structure GoForm where
  id : String
  values : List (String × List String)
  incidents : List Incident

/-- The per-form body of the loop in Execute: cross-resolve this form's
labels against the current document, populate, then insert incidents. -/
def processForm (cfg : Config) (ins : Inserter) (st : TravSt) (doc : HNode)
    (f : GoForm) : Except ExecErr HNode :=
  let inputs := inputsOf st f.id
  let lm := formLabels st doc f.id
  match populateForm cfg f.values inputs (optionsMapOf st f.id) doc with
  | .error e => .error e
  | .ok d1 => insertIncidents ins inputs lm d1 f.incidents

/-- The form loop of Execute: any failure aborts the remaining forms. -/
def runForms (cfg : Config) (ins : Inserter) (st : TravSt) :
    List GoForm → HNode → Except ExecErr HNode
  | [], doc => .ok doc
  | f :: fs, doc =>
    match processForm cfg ins st doc f with
    | .error e => .error e
    | .ok d' => runForms cfg ins st fs d'

/-- The traversal state Execute builds before processing forms. -/
def travStateOf (forms : List GoForm) (doc : HNode) : TravSt :=
  travNode (forms.map (fun f => f.id)) doc ⟨none, none, none⟩ ⟨[], [], [], []⟩

/-- FormPopulationFilter.Execute after the input has been parsed: resolve
scopes, process every form, and only then serialize.  The second component
models the byte stream written to w: html.Render runs exactly once, after
the whole pipeline succeeded, so an error leaves the writer untouched. -/
def Execute (cfg : Config) (ins : Inserter) (forms : List GoForm) (doc : HNode) :
    Except ExecErr Unit × List HNode :=
  match runForms cfg ins (travStateOf forms doc) forms doc with
  | .error e => (.error e, [])
  | .ok d => (.ok (), [d])

/-- A text input that already carries a value attribute (in last position,
so the broken Remove terminates without a panic). -/
def docWithOldValue : HNode :=
  .elem 1 "form" []
    [.elem 2 "input" [⟨"type", "text"⟩, ⟨"name", "foo"⟩, ⟨"value", "old"⟩] []]

/-- C1.  The generic value rule does NOT remove an existing value
attribute: Attributes.Remove re-slices a value receiver, so the caller
never observes a removal.  Populating a text input that already carries
value old with foo = [bar] keeps the old attribute and appends a second
value attribute; the first-match accessor still reads old.  When the value
attribute is not in last position the Remove loop reads past the shrunk
local slice, a Go index-out-of-range panic.  The claim that population
removes the existing value attribute and sets it to bar fails on this
input (the spec scenario without a pre-existing value attribute is the
only shape the tests exercise). -/
theorem C1_generic_value_rule_keeps_old_attribute :
    populateForm NewFilter [("foo", ["bar"])] [2] [] docWithOldValue =
      .ok (.elem 1 "form" []
        [.elem 2 "input"
          [⟨"type", "text"⟩, ⟨"name", "foo"⟩, ⟨"value", "old"⟩, ⟨"value", "bar"⟩] []]) ∧
    Attributes.Get "value"
      [⟨"type", "text"⟩, ⟨"name", "foo"⟩, ⟨"value", "old"⟩, ⟨"value", "bar"⟩] = "old" ∧
    Attributes.Remove "value" [⟨"value", "old"⟩, ⟨"type", "text"⟩] = none := by
  decide

/-- A fresh text input, as in the population scenario of the spec. -/
def docFreshText : HNode :=
  .elem 1 "form" [] [.elem 2 "input" [⟨"type", "text"⟩, ⟨"name", "foo"⟩] []]

/-- C2.  The value-population pass is not idempotent: the first run turns
the fresh text input into one carrying value bar, but because
Attributes.Remove never removes anything caller-visibly, the second run
appends a second value attribute instead of replacing the first, so the
second output differs from the first (the same failure hits the radio,
checkbox and select rules through the checked and selected markers). -/
theorem C2_population_second_run_differs :
    populateForm NewFilter [("foo", ["bar"])] [2] [] docFreshText =
      .ok (.elem 1 "form" []
        [.elem 2 "input" [⟨"type", "text"⟩, ⟨"name", "foo"⟩, ⟨"value", "bar"⟩] []]) ∧
    populateForm NewFilter [("foo", ["bar"])] [2] []
      (.elem 1 "form" []
        [.elem 2 "input" [⟨"type", "text"⟩, ⟨"name", "foo"⟩, ⟨"value", "bar"⟩] []]) =
      .ok (.elem 1 "form" []
        [.elem 2 "input"
          [⟨"type", "text"⟩, ⟨"name", "foo"⟩, ⟨"value", "bar"⟩, ⟨"value", "bar"⟩] []]) ∧
    (HNode.elem 1 "form" []
        [.elem 2 "input"
          [⟨"type", "text"⟩, ⟨"name", "foo"⟩, ⟨"value", "bar"⟩, ⟨"value", "bar"⟩] []]) ≠
      (.elem 1 "form" []
        [.elem 2 "input" [⟨"type", "text"⟩, ⟨"name", "foo"⟩, ⟨"value", "bar"⟩] []]) := by
  decide

/-- A form whose input has both a nested parent label (uid 3) and a
reference label (uid 5) whose for attribute matches its id. -/
def docNestedAndForLabel : HNode :=
  .elem 1 "root" []
    [.elem 2 "form" []
      [.elem 3 "label" []
        [.elem 4 "input" [⟨"id", "x"⟩, ⟨"name", "n"⟩, ⟨"type", "text"⟩] []],
       .elem 5 "label" [⟨"for", "x"⟩] [.text 6 "X"]]]

/-- C3.  The cross-resolver overwrites instead of appending: traversal
associates the nested label 3 with input 4, but the matching loop in
Execute assigns labels[input] = append(OPTIONS[input], label) — reading
the options map where its own comment says labels — so after
cross-resolution the input's label list is [5] alone and the nested
label 3 has been dropped, not merged in front as the claim states. -/
theorem C3_cross_resolver_drops_nested_label :
    mapGetD (labelsMapOf (travNode [""] docNestedAndForLabel
      ⟨none, none, none⟩ ⟨[], [], [], []⟩) "") 4 = [3] ∧
    mapGetD (formLabels (travNode [""] docNestedAndForLabel
      ⟨none, none, none⟩ ⟨[], [], [], []⟩) docNestedAndForLabel "") 4 = [5] := by
  decide

/-- Three sibling inputs inside a div inside a form: their lowest common
ancestor is the div. -/
def docThreeSiblings : HNode :=
  .elem 1 "root" []
    [.elem 2 "form" []
      [.elem 3 "div" []
        [.elem 4 "input" [⟨"type", "text"⟩, ⟨"name", "a"⟩] [],
         .elem 5 "input" [⟨"type", "text"⟩, ⟨"name", "b"⟩] [],
         .elem 6 "input" [⟨"type", "text"⟩, ⟨"name", "c"⟩] []]]]

/-- C4.  The pairwise lca fold restarts from the running ancestor's
parent, so for the three siblings (paths 0.0.0, 0.0.1, 0.0.2 under the
root) it returns path 0 (the form) although their common parent 0.0 (the
div) is a strict descendant of the form that is a strict ancestor of all
three elements — contradicting the no-lower-common-ancestor property and
the doc comment of Insert.  End to end, the default inserter therefore
appends the fragment to the form, not to the div. -/
theorem C4_lca_fold_overshoots :
    lca [0, 0, 0] [[0, 0, 1], [0, 0, 2]] = [0] ∧
    ([0] : List Nat) ≠ [0, 0] ∧ ([0] : List Nat) <+: [0, 0] ∧
    (∀ q ∈ [[0, 0, 0], [0, 0, 1], [0, 0, 2]],
      ([0, 0] : List Nat) ≠ q ∧ ([0, 0] : List Nat) <+: q) ∧
    DefaultIncidentInserter.insert [(4, []), (5, []), (6, [])] ["M"]
        docThreeSiblings =
      .elem 1 "root" []
        [.elem 2 "form" []
          [.elem 3 "div" []
            [.elem 4 "input" [⟨"type", "text"⟩, ⟨"name", "a"⟩, ⟨"class", "error"⟩] [],
             .elem 5 "input" [⟨"type", "text"⟩, ⟨"name", "b"⟩, ⟨"class", "error"⟩] [],
             .elem 6 "input" [⟨"type", "text"⟩, ⟨"name", "c"⟩, ⟨"class", "error"⟩] []],
           .elem 0 "ul" [⟨"class", "errors"⟩] [.elem 0 "li" [] [.text 0 "M"]]]] := by
  decide

/-- Two sibling inputs inside a div inside a form: the div is their
lowest common ancestor and the form is the div's parent. -/
def docTwoSiblings : HNode :=
  .elem 1 "root" []
    [.elem 2 "form" []
      [.elem 3 "div" []
        [.elem 4 "input" [⟨"type", "text"⟩, ⟨"name", "a"⟩] [],
         .elem 5 "input" [⟨"type", "text"⟩, ⟨"name", "b"⟩] []]]]

/-- C5 counterexample.  Under the default configuration the fragment for
a multi-element incident is appended as the LAST CHILD of the lowest
common ancestor (the div, path 0.0), not placed immediately after it:
the result equals the append-as-last-child tree and differs from the
tree the After placement asserted by the claim would produce (fragment
inserted among the form's children right after the div). -/
theorem C5_multi_placement_not_after :
    DefaultIncidentInserter.insert [(4, []), (5, [])] ["E"] docTwoSiblings =
      appendChildAt [0, 0] (renderDefaultTemplate ["E"])
        (markElements "error" [(4, []), (5, [])] docTwoSiblings) ∧
    DefaultIncidentInserter.insert [(4, []), (5, [])] ["E"] docTwoSiblings ≠
      insertChildAt [0] 1 (renderDefaultTemplate ["E"])
        (markElements "error" [(4, []), (5, [])] docTwoSiblings) := by
  decide

/-- A successful url.Values lookup returns a value slice of the mapping. -/
theorem lookupValues_mem {values : List (String × List String)} {name : String}
    {params : List String} (h : lookupValues values name = some params) :
    ∃ k, (k, params) ∈ values := by
  unfold lookupValues at h
  cases hf : values.find? (fun p => p.1 = name) with
  | none => rw [hf] at h; exact absurd h (by simp)
  | some pr =>
    rw [hf] at h
    have hmem := List.mem_of_find?_eq_some hf
    cases h
    exact ⟨pr.1, hmem⟩

/-- The select rule never reads params[0], so it cannot index-panic. -/
theorem populateOptions_no_indexPanic (params : List String) :
    ∀ (opts : List Nat) (doc : HNode),
    populateOptions params opts doc ≠ Except.error ExecErr.indexPanic := by
  intro opts
  induction opts with
  | nil => intro doc; simp [populateOptions]
  | cons o rest ih =>
    intro doc
    unfold populateOptions
    simp only []
    cases h1 : Attributes.Remove "selected" (attrsOfUid o doc) with
    | none => simp [h1]
    | some oa' =>
      simp only [h1]
      exact ih _

theorem populateStep_no_indexPanic (cfg : Config)
    (values : List (String × List String)) (optsMap : List (Nat × List Nat))
    (doc : HNode) (u : Nat) (h : ∀ p ∈ values, p.2 ≠ []) :
    populateStep cfg values optsMap doc u ≠ Except.error ExecErr.indexPanic := by
  unfold populateStep
  split
  · simp
  next ta tag attrs heq =>
    split
    · simp
    next params hl =>
      have hp : params ≠ [] := by
        obtain ⟨k, hk⟩ := lookupValues_mem hl
        exact h (k, params) hk
      obtain ⟨v, vs, rfl⟩ : ∃ v vs, params = v :: vs := by
        cases params with
        | nil => exact absurd rfl hp
        | cons v vs => exact ⟨v, vs, rfl⟩
      repeat' split
      all_goals
        solve
          | exact populateOptions_no_indexPanic _ _ _
          | simp [head0]
          | simp_all [head0]
          | (intro hx; simp only [] at hx; (repeat' split at hx) <;> simp_all)
/-- C10.  Under the data-model precondition that every value slice in the
Values mapping is non-empty, the population pass never reads params[0]
out of bounds: the index-panic branch of the embedding is unreachable for
the textarea, radio/checkbox and generic value-attribute rules (the only
readers of the first supplied value). -/
theorem C10_populate_first_value_reads_in_bounds
    (cfg : Config) (values : List (String × List String)) (inputs : List Nat)
    (optsMap : List (Nat × List Nat)) (doc : HNode)
    (h : ∀ p ∈ values, p.2 ≠ []) :
    populateForm cfg values inputs optsMap doc ≠ Except.error ExecErr.indexPanic := by
  induction inputs generalizing doc with
  | nil => simp [populateForm]
  | cons u rest ih =>
    have hne := populateStep_no_indexPanic cfg values optsMap doc u h
    cases hs : populateStep cfg values optsMap doc u with
    | error e =>
      rw [hs] at hne
      simp only [populateForm, hs]
      exact hne
    | ok d' =>
      simp only [populateForm, hs]
      exact ih d'

/-- C10 witness at a concrete non-empty mapping. -/
theorem C10_witness :
    (∀ p ∈ [("foo", ["bar"])], p.2 ≠ ([] : List String)) ∧
    populateForm NewFilter [("foo", ["bar"])] [2] [] docFreshText ≠
      Except.error ExecErr.indexPanic :=
  ⟨by decide, C10_populate_first_value_reads_in_bounds NewFilter
    [("foo", ["bar"])] [2] [] docFreshText (by decide)⟩

/-- C6.  Under the default configuration built by New (password population
disabled), a password input whose name has a supplied value list is left
entirely unchanged by its population step: the whole document comes back
untouched, so no value attribute is added and no attribute is modified. -/
theorem C6_password_default_untouched
    (values : List (String × List String)) (optsMap : List (Nat × List Nat))
    (doc : HNode) (u : Nat) (attrs : List HAttr) (params : List String)
    (h1 : findTagAttrs u doc = some ("input", attrs))
    (h2 : Attributes.Get "type" attrs = "password")
    (h3 : lookupValues values (Attributes.Get "name" attrs) = some params) :
    populateStep NewFilter values optsMap doc u = Except.ok doc := by
  unfold populateStep
  simp only [h1, h3, h2, NewFilter]
  rw [if_neg (by decide), if_neg (by decide), if_neg (by decide),
    if_neg (by decide), if_pos (by decide)]

/-- A password input under the default configuration, as in the spec
scenario. -/
def docPassword : HNode :=
  .elem 1 "form" [] [.elem 2 "input" [⟨"type", "password"⟩, ⟨"name", "pw"⟩] []]

/-- C6 witness: the spec scenario pw = [secret] leaves the input as is. -/
theorem C6_witness :
    populateStep NewFilter [("pw", ["secret"])] [] docPassword 2 =
      Except.ok docPassword :=
  C6_password_default_untouched [("pw", ["secret"])] [] docPassword 2
    [⟨"type", "password"⟩, ⟨"name", "pw"⟩] ["secret"]
    (by decide) (by decide) (by decide)

/-- Splitting the form loop: an error in a prefix aborts the suffix. -/
theorem runForms_append (cfg : Config) (ins : Inserter) (st : TravSt)
    (fs1 fs2 : List GoForm) (doc : HNode) :
    runForms cfg ins st (fs1 ++ fs2) doc =
      match runForms cfg ins st fs1 doc with
      | .error e => .error e
      | .ok d => runForms cfg ins st fs2 d := by
  induction fs1 generalizing doc with
  | nil => simp [runForms]
  | cons g gs ih =>
    simp only [List.cons_append, runForms]
    cases hp : processForm cfg ins st doc g with
    | error e => simp [hp]
    | ok d' => simp [hp, ih]

/-- C7.  If, while processing some form (after any prefix of forms
succeeded and the form's population succeeded), the incident-insertion
step fails, Execute returns that error and the output writer receives
nothing: serialization runs only after every form's population and
insertion completed, so there is no partial output. -/
theorem C7_insert_failure_no_output
    (cfg : Config) (ins : Inserter) (fs1 : List GoForm) (f : GoForm)
    (fs2 : List GoForm) (doc d1 d2 : HNode) (e : ExecErr)
    (h1 : runForms cfg ins (travStateOf (fs1 ++ f :: fs2) doc) fs1 doc =
      Except.ok d1)
    (h2 : populateForm cfg f.values
        (inputsOf (travStateOf (fs1 ++ f :: fs2) doc) f.id)
        (optionsMapOf (travStateOf (fs1 ++ f :: fs2) doc) f.id) d1 =
      Except.ok d2)
    (h3 : insertIncidents ins
        (inputsOf (travStateOf (fs1 ++ f :: fs2) doc) f.id)
        (formLabels (travStateOf (fs1 ++ f :: fs2) doc) d1 f.id) d2
        f.incidents = Except.error e) :
    Execute cfg ins (fs1 ++ f :: fs2) doc = (Except.error e, []) := by
  have hrun : runForms cfg ins (travStateOf (fs1 ++ f :: fs2) doc)
      (fs1 ++ f :: fs2) doc = Except.error e := by
    rw [runForms_append, h1]
    simp only [runForms, processForm, h2, h3]
  unfold Execute
  rw [hrun]

/-- An inserter that always fails, modelling a fragment parse error. -/
def failingInserter : Inserter := fun _ _ _ => .error .insertFail

/-- The form used by the C7 witness. -/
def formWithIncident : GoForm := ⟨"", [("foo", ["bar"])], [⟨["foo"], ["msg"]⟩]⟩

/-- C7 witness: with a failing insertion strategy on a form whose
incident matches, Execute returns the error and writes nothing. -/
theorem C7_witness :
    Execute NewFilter failingInserter [formWithIncident] docFreshText =
      (Except.error ExecErr.insertFail, []) :=
  C7_insert_failure_no_output NewFilter failingInserter [] formWithIncident []
    docFreshText docFreshText
    (.elem 1 "form" []
      [.elem 2 "input" [⟨"type", "text"⟩, ⟨"name", "foo"⟩, ⟨"value", "bar"⟩] []])
    ExecErr.insertFail (by decide) (by decide) (by decide)

/-- The element-kind switch appends at most the current node. -/
theorem travKind_inputs (fid : String) (u : Nat) (tag : String)
    (attrs : List HAttr) (ctx : TravCtx) (st : TravSt) :
    (travKind fid u tag attrs ctx st).1.inputs = st.inputs ∨
    (travKind fid u tag attrs ctx st).1.inputs = st.inputs ++ [(fid, u)] := by
  unfold travKind travInputAdd
  simp only []
  by_cases h1 : Attributes.Get "name" attrs = ""
  · rw [if_pos h1]; left; rfl
  · rw [if_neg h1]
    by_cases h2 : tag = "input" ∨ tag = "textarea" ∨ tag = "progress" ∨ tag = "meter"
    · rw [if_pos h2]; right; rfl
    · rw [if_neg h2]
      by_cases h3 : tag = "button"
      · rw [if_pos h3]
        by_cases h4 : Attributes.Get "type" attrs = "submit"
        · rw [if_pos h4]; right; rfl
        · rw [if_neg h4]; left; rfl
      · rw [if_neg h3]
        by_cases h5 : tag = "select"
        · rw [if_pos h5]; right; rfl
        · rw [if_neg h5]; left; rfl

/-- The post-interest-check part of the body appends at most the node. -/
theorem travBody1_inputs (fid : String) (u : Nat) (tag : String)
    (attrs : List HAttr) (ctx : TravCtx) (st : TravSt) :
    (travBody1 fid u tag attrs ctx st).1.inputs = st.inputs ∨
    (travBody1 fid u tag attrs ctx st).1.inputs = st.inputs ++ [(fid, u)] := by
  obtain ⟨cf, cl, cs⟩ := ctx
  unfold travBody1
  simp only []
  by_cases h1 : tag = "label" ∧ Attributes.Has "for" attrs = true
  · rw [if_pos h1]; left; rfl
  · rw [if_neg h1]
    cases cs with
    | some s =>
      simp only []
      by_cases h2 : tag = "option"
      · rw [if_pos h2]; left; rfl
      · rw [if_neg h2]; exact travKind_inputs fid u tag attrs ⟨cf, cl, some s⟩ st
    | none =>
      simp only []
      exact travKind_inputs fid u tag attrs ⟨cf, cl, none⟩ st

/-- A traverse body appends at most the current node to the inputs slice. -/
theorem travBody_inputs (interest : List String) (u : Nat) (tag : String)
    (attrs : List HAttr) (ctx : TravCtx) (st : TravSt) :
    (travBody interest u tag attrs ctx st).1.inputs = st.inputs ∨
    ∃ fid, (travBody interest u tag attrs ctx st).1.inputs =
      st.inputs ++ [(fid, u)] := by
  unfold travBody
  simp only []
  by_cases h1 : Option.isNone ctx.form = true ∧
    Option.isNone (Attributes.Attribute "form" attrs) = true
  · rw [if_pos h1]; left; rfl
  · rw [if_neg h1]
    by_cases h2 : travFormId (Attributes.Attribute "form" attrs) ctx.form ∈ interest
    · rw [if_pos h2]
      rcases travBody1_inputs (travFormId (Attributes.Attribute "form" attrs)
        ctx.form) u tag attrs ctx st with h | h
      · left; exact h
      · right; exact ⟨_, h⟩
    · rw [if_neg h2]; left; rfl

/- Inputs collected by the traversal extend the state in document order:
the appended uids form a sublist of the subtree's pre-order uids. -/
mutual
theorem travNode_inputs_delta (interest : List String) :
    ∀ (n : HNode) (ctx : TravCtx) (st : TravSt),
    ∃ d, (travNode interest n ctx st).inputs = st.inputs ++ d ∧
      List.Sublist (d.map (fun p => p.2)) (preorderUids n)
  | .text u s, ctx, st => ⟨[], by simp [travNode], by simp⟩
  | .elem u tag attrs cs, ctx, st => by
    have hb := travBody_inputs interest u tag attrs
      ⟨if tag = "form" then some attrs else ctx.form,
       if tag = "label" then some u else ctx.label, ctx.sel⟩ st
    obtain ⟨d2, hd2, hs2⟩ := travList_inputs_delta interest cs
      (travBody interest u tag attrs
        ⟨if tag = "form" then some attrs else ctx.form,
         if tag = "label" then some u else ctx.label, ctx.sel⟩ st).2
      (travBody interest u tag attrs
        ⟨if tag = "form" then some attrs else ctx.form,
         if tag = "label" then some u else ctx.label, ctx.sel⟩ st).1
    rcases hb with hb | ⟨fid, hb⟩
    · refine ⟨d2, ?_, ?_⟩
      · simp only [travNode]
        rw [hd2, hb]
      · exact List.Sublist.trans hs2 (by simp [preorderUids])
    · refine ⟨(fid, u) :: d2, ?_, ?_⟩
      · simp only [travNode]
        rw [hd2, hb, List.append_assoc]
        rfl
      · simp only [preorderUids, List.map_cons]
        exact List.Sublist.cons₂ u hs2
theorem travList_inputs_delta (interest : List String) :
    ∀ (cs : List HNode) (ctx : TravCtx) (st : TravSt),
    ∃ d, (travList interest cs ctx st).inputs = st.inputs ++ d ∧
      List.Sublist (d.map (fun p => p.2)) (preorderUidsL cs)
  | [], ctx, st => ⟨[], by simp [travList], by simp⟩
  | c :: cs, ctx, st => by
    obtain ⟨d1, hd1, hs1⟩ := travNode_inputs_delta interest c ctx st
    obtain ⟨d2, hd2, hs2⟩ := travList_inputs_delta interest cs ctx
      (travNode interest c ctx st)
    refine ⟨d1 ++ d2, ?_, ?_⟩
    · simp only [travList]
      rw [hd2, hd1, List.append_assoc]
    · simp only [preorderUidsL, List.map_append]
      exact List.Sublist.append hs1 hs2
end

/-- C9.  After scope resolution from a fresh context and state, every
form's inputs slice lists uids in document (depth-first pre-order) order
(it is a sublist of the document's pre-order uid enumeration), and when
node identities are distinct — as Go pointers are — no element occurs
twice, even when an element is attributable to its form both by nesting
and by a form attribute naming the same form. -/
theorem C9_inputs_document_order_nodup (interest : List String) (doc : HNode)
    (fid : String) (h : (preorderUids doc).Nodup) :
    List.Sublist
      (inputsOf (travNode interest doc ⟨none, none, none⟩ ⟨[], [], [], []⟩) fid)
      (preorderUids doc) ∧
    (inputsOf (travNode interest doc ⟨none, none, none⟩ ⟨[], [], [], []⟩) fid).Nodup := by
  obtain ⟨d, hd, hs⟩ := travNode_inputs_delta interest doc
    ⟨none, none, none⟩ ⟨[], [], [], []⟩
  have hsub : List.Sublist
      (inputsOf (travNode interest doc ⟨none, none, none⟩ ⟨[], [], [], []⟩) fid)
      (preorderUids doc) := by
    unfold inputsOf
    rw [hd]
    simp only [List.nil_append]
    exact List.Sublist.trans (List.Sublist.map _ (List.filter_sublist d)) hs
  exact ⟨hsub, List.Nodup.sublist hsub h⟩

/-- A small document exercising both attribution routes: input 3 is
nested in the form, input 4 references it by form attribute. -/
def docNestedAndRef : HNode :=
  .elem 1 "root" []
    [.elem 2 "form" [⟨"id", "g"⟩]
      [.elem 3 "input" [⟨"name", "a"⟩, ⟨"type", "text"⟩] []],
     .elem 4 "input" [⟨"form", "g"⟩, ⟨"name", "b"⟩] []]

/-- C9 witness at a concrete document with distinct uids. -/
theorem C9_witness :
    (preorderUids docNestedAndRef).Nodup ∧
    (List.Sublist
      (inputsOf (travNode ["g"] docNestedAndRef ⟨none, none, none⟩
        ⟨[], [], [], []⟩) "g") (preorderUids docNestedAndRef) ∧
    (inputsOf (travNode ["g"] docNestedAndRef ⟨none, none, none⟩
        ⟨[], [], [], []⟩) "g").Nodup) :=
  ⟨by decide, C9_inputs_document_order_nodup ["g"] docNestedAndRef "g" (by decide)⟩

/-- addErrorClass only touches the class attribute: first-match lookup of
any other key is unchanged. -/
theorem Attribute_addClass (k c : String) (hk : k ≠ "class") :
    ∀ attrs : List HAttr,
    Attributes.Attribute k (addClass c attrs) = Attributes.Attribute k attrs := by
  intro attrs
  induction attrs with
  | nil =>
    simp only [addClass, Attributes.Attribute]
    rw [if_neg (by simpa using fun h => hk h.symm)]
  | cons a rest ih =>
    by_cases ha : a.key = "class"
    · simp only [addClass, if_pos ha, Attributes.Attribute]
      rw [if_neg (by rw [ha]; exact fun h => hk h.symm),
        if_neg (by rw [ha]; exact fun h => hk h.symm)]
    · simp only [addClass, if_neg ha, Attributes.Attribute]
      by_cases hak : a.key = k
      · rw [if_pos hak, if_pos hak]
      · rw [if_neg hak, if_neg hak]
        exact ih

/-- The attribute list found for a uid within a node list. -/
def attrsOfUidL (u : Nat) (cs : List HNode) : List HAttr :=
  match findTagAttrsL u cs with
  | some ta => ta.2
  | none => []

/- Marking a class through any pointer preserves which uids resolve and
the name attribute every uid resolves to. -/
mutual
theorem findTagAttrs_mark (c : String) (v u : Nat) :
    ∀ n : HNode,
    (findTagAttrs u (markByUid c v n)).isSome = (findTagAttrs u n).isSome ∧
    Attributes.Get "name" (attrsOfUid u (markByUid c v n)) =
      Attributes.Get "name" (attrsOfUid u n)
  | .text w s => by
    constructor
    · rfl
    · rfl
  | .elem w t a cs => by
    by_cases hw : w = u
    · constructor
      · simp [markByUid, findTagAttrs, hw]
      · simp only [markByUid, attrsOfUid, findTagAttrs, if_pos hw]
        by_cases hv : w = v
        · rw [if_pos hv]
          simp only [Attributes.Get, Attribute_addClass "name" c (by decide) a]
        · rw [if_neg hv]
    · obtain ⟨h1, h2⟩ := findTagAttrsL_mark c v u cs
      constructor
      · simpa [markByUid, findTagAttrs, hw] using h1
      · simpa [markByUid, attrsOfUid, attrsOfUidL, findTagAttrs, hw] using h2
theorem findTagAttrsL_mark (c : String) (v u : Nat) :
    ∀ cs : List HNode,
    (findTagAttrsL u (markByUidL c v cs)).isSome = (findTagAttrsL u cs).isSome ∧
    Attributes.Get "name" (attrsOfUidL u (markByUidL c v cs)) =
      Attributes.Get "name" (attrsOfUidL u cs)
  | [] => by
    constructor
    · rfl
    · rfl
  | c' :: cs => by
    obtain ⟨hs, hn⟩ := findTagAttrs_mark c v u c'
    obtain ⟨hs2, hn2⟩ := findTagAttrsL_mark c v u cs
    cases ho : findTagAttrs u c' with
    | none =>
      have hmo : findTagAttrs u (markByUid c v c') = none := by
        rw [ho] at hs
        simp only [Option.isSome_none] at hs
        exact Option.not_isSome_iff_eq_none.mp (by simp [hs])
      constructor
      · simpa [markByUidL, findTagAttrsL, hmo, ho] using hs2
      · simpa [attrsOfUidL, markByUidL, findTagAttrsL, hmo, ho] using hn2
    | some ta =>
      have hms : ∃ ta', findTagAttrs u (markByUid c v c') = some ta' := by
        rw [ho] at hs
        exact Option.isSome_iff_exists.mp (by simp [hs])
      obtain ⟨ta', hta'⟩ := hms
      constructor
      · simp [markByUidL, findTagAttrsL, hta', ho]
      · have : Attributes.Get "name" ta'.2 = Attributes.Get "name" ta.2 := by
          simpa [attrsOfUid, hta', ho] using hn
        simpa [attrsOfUidL, markByUidL, findTagAttrsL, hta', ho] using this
end

/-- Marking preserves the name attribute every uid resolves to. -/
theorem nameOfUid_mark (c : String) (v u : Nat) (d : HNode) :
    nameOfUid u (markByUid c v d) = nameOfUid u d :=
  (findTagAttrs_mark c v u d).2

/-- Marking a label list preserves all resolved names. -/
theorem nameOfUid_markLabels (c : String) (u : Nat) :
    ∀ (ls : List Nat) (d : HNode),
    nameOfUid u (markLabels c ls d) = nameOfUid u d := by
  intro ls
  induction ls with
  | nil => intro d; rfl
  | cons l rest ih =>
    intro d
    simp only [markLabels]
    rw [ih, nameOfUid_mark]

/-- Marking all matched elements preserves all resolved names. -/
theorem nameOfUid_markElements (c : String) (u : Nat) :
    ∀ (elements : List (Nat × List Nat)) (d : HNode),
    nameOfUid u (markElements c elements d) = nameOfUid u d := by
  intro elements
  induction elements with
  | nil => intro d; rfl
  | cons el rest ih =>
    intro d
    obtain ⟨e, ls⟩ := el
    simp only [markElements]
    rw [ih, nameOfUid_markLabels, nameOfUid_mark]

/-- findTagAttrsL distributes over list concatenation. -/
theorem findTagAttrsL_append (u : Nat) :
    ∀ (as bs : List HNode),
    findTagAttrsL u (as ++ bs) =
      match findTagAttrsL u as with
      | some ta => some ta
      | none => findTagAttrsL u bs := by
  intro as
  induction as with
  | nil => intro bs; rfl
  | cons a rest ih =>
    intro bs
    simp only [List.cons_append, findTagAttrsL]
    cases findTagAttrs u a with
    | some ta => rfl
    | none => exact ih bs

/-- Inserting a fragment that does not carry the uid into a children list
leaves lookups for that uid unchanged. -/
theorem findTagAttrsL_insert (u : Nat) (frag : HNode)
    (hfrag : findTagAttrs u frag = none) (cs : List HNode) (i : Nat) :
    findTagAttrsL u (cs.take i ++ frag :: cs.drop i) = findTagAttrsL u cs := by
  rw [findTagAttrsL_append]
  have hdrop : findTagAttrsL u (frag :: cs.drop i) = findTagAttrsL u (cs.drop i) := by
    simp only [findTagAttrsL, hfrag]
  rw [hdrop]
  conv_rhs => rw [← List.take_append_drop i cs]
  rw [findTagAttrsL_append]

/-- Appending a fragment that does not carry the uid likewise. -/
theorem findTagAttrsL_appendFrag (u : Nat) (frag : HNode)
    (hfrag : findTagAttrs u frag = none) (cs : List HNode) :
    findTagAttrsL u (cs ++ [frag]) = findTagAttrsL u cs := by
  rw [findTagAttrsL_append]
  cases h : findTagAttrsL u cs with
  | some ta => rfl
  | none => simp [findTagAttrsL, hfrag]

/-- modifyListAt only rewrites the i-th entry. -/
theorem findTagAttrsL_modifyListAt (u : Nat) (g : HNode → HNode)
    (hg : ∀ n, findTagAttrs u (g n) = findTagAttrs u n) :
    ∀ (j : Nat) (cs : List HNode),
    findTagAttrsL u (modifyListAt j g cs) = findTagAttrsL u cs := by
  intro j cs
  induction cs generalizing j with
  | nil => simp [modifyListAt]
  | cons c rest ih =>
    cases j with
    | zero => simp only [modifyListAt, findTagAttrsL, hg c]
    | succ j' => simp only [modifyListAt, findTagAttrsL, ih j']

/-- A children-only rewrite at any path preserves every uid lookup. -/
theorem findTagAttrs_modifyAtPath (u : Nat) (g : HNode → HNode)
    (hg : ∀ n, findTagAttrs u (g n) = findTagAttrs u n) :
    ∀ (p : List Nat) (d : HNode),
    findTagAttrs u (modifyAtPath g p d) = findTagAttrs u d := by
  intro p
  induction p with
  | nil => intro d; exact hg d
  | cons j p' ih =>
    intro d
    cases d with
    | text w s => rfl
    | elem w t a cs =>
      simp only [modifyAtPath, findTagAttrs]
      rw [findTagAttrsL_modifyListAt u _ ih j cs]

/-- insertChildAt with a uid-free fragment preserves every uid lookup. -/
theorem findTagAttrs_insertChildAt (u : Nat) (frag : HNode)
    (hfrag : findTagAttrs u frag = none) (p : List Nat) (i : Nat) (d : HNode) :
    findTagAttrs u (insertChildAt p i frag d) = findTagAttrs u d := by
  unfold insertChildAt
  refine findTagAttrs_modifyAtPath u _ ?_ p d
  intro n
  cases n with
  | text w s => rfl
  | elem w t a cs =>
    simp only [findTagAttrs]
    rw [findTagAttrsL_insert u frag hfrag cs i]

/-- appendChildAt with a uid-free fragment preserves every uid lookup. -/
theorem findTagAttrs_appendChildAt (u : Nat) (frag : HNode)
    (hfrag : findTagAttrs u frag = none) (p : List Nat) (d : HNode) :
    findTagAttrs u (appendChildAt p frag d) = findTagAttrs u d := by
  unfold appendChildAt
  refine findTagAttrs_modifyAtPath u _ ?_ p d
  intro n
  cases n with
  | text w s => rfl
  | elem w t a cs =>
    simp only [findTagAttrs]
    rw [findTagAttrsL_appendFrag u frag hfrag cs]

/-- The default template fragment only carries the fresh uid 0. -/
theorem findTagAttrs_renderDefault (u : Nat) (hu : u ≠ 0) (errors : List String) :
    findTagAttrs u (renderDefaultTemplate errors) = none := by
  have h0 : ¬(0 = u) := Ne.symm hu
  unfold renderDefaultTemplate
  simp only [findTagAttrs, if_neg h0]
  induction errors with
  | nil => rfl
  | cons e rest ih =>
    simp only [List.map_cons, findTagAttrsL, findTagAttrs, if_neg h0]
    exact ih

/-- The default insertion strategy preserves the name attribute resolved
by every live (non-fresh) uid: class marking only touches class, and the
fragment it places carries only uid 0. -/
theorem nameOfUid_defaultInsert (u : Nat) (hu : u ≠ 0)
    (elements : List (Nat × List Nat)) (errors : List String) (d : HNode) :
    nameOfUid u (DefaultIncidentInserter.insert elements errors d) =
      nameOfUid u d := by
  unfold GenericIncidentInserter.insert
  have hfrag : findTagAttrs u (DefaultIncidentInserter.renderErrors errors) = none :=
    findTagAttrs_renderDefault u hu errors
  have hmark : ∀ d', nameOfUid u
      (markElements DefaultIncidentInserter.errorClass elements d') = nameOfUid u d' :=
    fun d' => nameOfUid_markElements _ u elements d'
  match elements with
  | [] => exact hmark d
  | [(e, ls)] =>
    simp only []
    cases hp : pathOfUid e (markElements DefaultIncidentInserter.errorClass [(e, ls)] d) with
    | none =>
      simp only []
      exact hmark d
    | some p =>
      simp only []
      cases hl : p.getLast? with
      | none => exact hmark d
      | some i =>
        simp only []
        unfold nameOfUid attrsOfUid
        rw [findTagAttrs_insertChildAt u _ hfrag]
        exact hmark d
  | (e, ls) :: el2 :: rest =>
    simp only []
    unfold nameOfUid attrsOfUid
    rw [findTagAttrs_appendChildAt u _ hfrag]
    exact hmark d

/-- matchedElements only reads the name each input uid resolves to. -/
theorem matchedElements_congr (d d' : HNode) (inputs : List Nat)
    (lm : List (Nat × List Nat)) (names : List String)
    (h : ∀ u ∈ inputs, nameOfUid u d' = nameOfUid u d) :
    matchedElements d' inputs lm names = matchedElements d inputs lm names := by
  induction inputs with
  | nil => rfl
  | cons u rest ih =>
    simp only [matchedElements]
    rw [h u (List.mem_cons_self u rest),
      ih (fun w hw => h w (List.mem_cons_of_mem u hw))]

/-- C8.  An incident whose names match no input of the form invokes no
insertion and mutates nothing: under the default insertion strategy the
whole incident loop produces exactly the document it would produce with
that incident removed, and no error is raised (the loop never fails).
The uid hypothesis says the form's inputs are live nodes, distinct from
the fresh uid 0 given to parsed fragment nodes. -/
theorem C8_zero_match_incident_removable
    (inputs : List Nat) (lm : List (Nat × List Nat)) (doc : HNode)
    (pre post : List Incident) (inc : Incident)
    (h0 : ∀ u ∈ inputs, u ≠ 0)
    (h1 : matchedElements doc inputs lm inc.names = []) :
    insertIncidents defaultInserter inputs lm doc (pre ++ inc :: post) =
      insertIncidents defaultInserter inputs lm doc (pre ++ post) := by
  induction pre generalizing doc with
  | nil =>
    simp only [List.nil_append, insertIncidents, h1]
  | cons i pre ih =>
    simp only [List.cons_append, insertIncidents]
    cases hm : matchedElements doc inputs lm i.names with
    | nil => exact ih doc h1
    | cons e es =>
      simp only [defaultInserter]
      refine ih (DefaultIncidentInserter.insert (e :: es) i.errors doc) ?_
      rw [matchedElements_congr doc _ inputs lm inc.names
        (fun u hu => nameOfUid_defaultInsert u (h0 u hu) (e :: es) i.errors doc)]
      exact h1

/-- C8 witness: a form with one input named foo; a matching incident
before and after does not disturb removing the zero-match incident. -/
theorem C8_witness :
    (∀ u ∈ [2], u ≠ 0) ∧
    matchedElements docFreshText [2] [] ["zzz"] = [] ∧
    insertIncidents defaultInserter [2] [] docFreshText
      [⟨["foo"], ["E1"]⟩, ⟨["zzz"], ["none"]⟩] =
    insertIncidents defaultInserter [2] [] docFreshText [⟨["foo"], ["E1"]⟩] :=
  ⟨by decide, by decide,
    C8_zero_match_incident_removable [2] [] docFreshText
      [⟨["foo"], ["E1"]⟩] [] ⟨["zzz"], ["none"]⟩ (by decide) (by decide)⟩

/-- modifyListAt rewrites exactly the addressed entry. -/
theorem get?_modifyListAt (g : HNode → HNode) :
    ∀ (j : Nat) (cs : List HNode),
    (modifyListAt j g cs).get? j = (cs.get? j).map g := by
  intro j cs
  induction cs generalizing j with
  | nil => simp [modifyListAt]
  | cons c rest ih =>
    cases j with
    | zero => simp [modifyListAt]
    | succ j' =>
      simp only [modifyListAt, List.get?_cons_succ]
      exact ih j'

/-- modifyAtPath applies its function exactly at the addressed node. -/
theorem nodeAtPath_modifyAtPath_self (g : HNode → HNode) :
    ∀ (p : List Nat) (d n : HNode), nodeAtPath p d = some n →
    nodeAtPath p (modifyAtPath g p d) = some (g n) := by
  intro p
  induction p with
  | nil =>
    intro d n h
    cases h
    rfl
  | cons j p' ih =>
    intro d n h
    cases d with
    | text w s => exact absurd h (by simp [nodeAtPath])
    | elem w t a cs =>
      simp only [nodeAtPath] at h
      cases hg : cs.get? j with
      | none => rw [hg] at h; exact absurd h (by simp)
      | some c =>
        rw [hg] at h
        simp only [modifyAtPath, nodeAtPath, get?_modifyListAt, hg, Option.map_some]
        exact ih c n h

/-- C5 (amended).  Under the default incident-insertion configuration the
error class is error and the renderer is the unordered-list template; the
rendered fragment is placed immediately AFTER the element for a single
matched element (it appears among the parent's children right after child
index i, where the element sits at index i), but for multiple matched
elements it is appended as the LAST CHILD of the computed common ancestor
— not placed after it, as the original claim stated. -/
theorem C5_default_insertion_placements :
    DefaultIncidentInserter.errorClass = "error" ∧
    DefaultIncidentInserter.renderErrors = renderDefaultTemplate ∧
    (∀ (errors : List String) (e : Nat) (ls : List Nat) (d : HNode)
      (pp : List Nat) (i v : Nat) (t : String) (a : List HAttr)
      (cs : List HNode),
      pathOfUid e (markElements "error" [(e, ls)] d) = some (pp ++ [i]) →
      nodeAtPath pp (markElements "error" [(e, ls)] d) =
        some (.elem v t a cs) →
      nodeAtPath pp (DefaultIncidentInserter.insert [(e, ls)] errors d) =
        some (.elem v t a
          (cs.take (i + 1) ++ renderDefaultTemplate errors :: cs.drop (i + 1)))) ∧
    (∀ (errors : List String) (e : Nat) (ls : List Nat) (el2 : Nat × List Nat)
      (rest : List (Nat × List Nat)) (d : HNode) (anc : List Nat) (v : Nat)
      (t : String) (a : List HAttr) (cs : List HNode),
      anc = lca (pathOr0 e (markElements "error" ((e, ls) :: el2 :: rest) d))
        ((el2 :: rest).map (fun el =>
          pathOr0 el.1 (markElements "error" ((e, ls) :: el2 :: rest) d))) →
      nodeAtPath anc (markElements "error" ((e, ls) :: el2 :: rest) d) =
        some (.elem v t a cs) →
      nodeAtPath anc
        (DefaultIncidentInserter.insert ((e, ls) :: el2 :: rest) errors d) =
        some (.elem v t a (cs ++ [renderDefaultTemplate errors]))) := by
  refine ⟨rfl, rfl, ?_, ?_⟩
  · intro errors e ls d pp i v t a cs hp hn
    unfold GenericIncidentInserter.insert DefaultIncidentInserter
    simp only []
    rw [hp]
    simp only [List.getLast?_concat, List.dropLast_concat]
    unfold insertChildAt
    exact nodeAtPath_modifyAtPath_self _ pp _ _ hn
  · intro errors e ls el2 rest d anc v t a cs hanc hn
    unfold GenericIncidentInserter.insert DefaultIncidentInserter
    simp only []
    subst hanc
    unfold appendChildAt
    exact nodeAtPath_modifyAtPath_self _ _ _ _ hn

/-- C5 witness: both placement rules at the two-sibling document — the
single-element fragment lands right after the input (between the two
inputs), the two-element fragment lands as the div's last child. -/
theorem C5_witness :
    nodeAtPath [0, 0]
      (DefaultIncidentInserter.insert [(4, [])] ["E"] docTwoSiblings) =
      some (.elem 3 "div" []
        (([.elem 4 "input" [⟨"type", "text"⟩, ⟨"name", "a"⟩, ⟨"class", "error"⟩] [],
           .elem 5 "input" [⟨"type", "text"⟩, ⟨"name", "b"⟩] []] : List HNode).take (0 + 1) ++
          renderDefaultTemplate ["E"] ::
          ([.elem 4 "input" [⟨"type", "text"⟩, ⟨"name", "a"⟩, ⟨"class", "error"⟩] [],
            .elem 5 "input" [⟨"type", "text"⟩, ⟨"name", "b"⟩] []] : List HNode).drop (0 + 1))) ∧
    nodeAtPath [0, 0]
      (DefaultIncidentInserter.insert [(4, []), (5, [])] ["E"] docTwoSiblings) =
      some (.elem 3 "div" []
        ([.elem 4 "input" [⟨"type", "text"⟩, ⟨"name", "a"⟩, ⟨"class", "error"⟩] [],
          .elem 5 "input" [⟨"type", "text"⟩, ⟨"name", "b"⟩, ⟨"class", "error"⟩] []] ++
          [renderDefaultTemplate ["E"]])) :=
  ⟨C5_default_insertion_placements.2.2.1 ["E"] 4 [] docTwoSiblings [0, 0] 0 3
      "div" [] _ (by decide) (by decide),
   C5_default_insertion_placements.2.2.2 ["E"] 4 [] (5, []) [] docTwoSiblings
      [0, 0] 3 "div" [] _ (by decide) (by decide)⟩
